import Mathlib

/-!
Verification of the "Distribute and Shorten Strips" sequencer add-on
(`src/__init__.py`).  The add-on registers a single operator that reads the
host's scene graph, splits the active strip's duration evenly over the
working set of strips, and rewrites their start frame, duration and channel
so they sit sequentially on one channel.

The host-owned data model (strips, the sequence editor session, the scene)
is embedded shallowly as Lean structures.  Host objects are identified by
their `name` attribute, which the host keeps unique; object mutation through
a reference is modelled as an update of the first list entry carrying the
same name.  Python's `list(set(...))` has an unspecified iteration order, so
the working-set construction is parametrised by a reordering function
`pySet` constrained (in the theorems) to produce a permutation of the list
it is given.
-/

namespace DistributeSelected

/-- Models CPython `round(D / N)` for an integer `D` and a positive integer
`N`: the exact quotient `D / N` is rounded to the nearest integer, with
halves going to the even neighbour (banker's rounding).  CPython evaluates
`D / N` in double precision, which is exact at every quotient the claims
exercise; `round` on an exact half rounds to even.  `Int.fdiv` is floor
division, so `f` below is the floor of the rational quotient and
`2 * (D - f * N)` compares twice the fractional remainder against `N`. -/
def pyRound (D N : ℤ) : ℤ :=
  let f := D.fdiv N
  let r2 := 2 * (D - f * N)
  if r2 < N then f
  else if N < r2 then f + 1
  else if f % 2 = 0 then f else f + 1

/-- Source line 64:
`new_duration_per_strip = max(1, int(round(original_total_duration / num_strips)))`. -/
def newDurationPerStrip (D : ℤ) (N : ℕ) : ℤ :=
  max 1 (pyRound D N)

/-- Report severities used by the operator (`{'WARNING'}` / `{'INFO'}`). -/
inductive Severity
  | WARNING
  | INFO
deriving DecidableEq, Repr

/-- One `self.report(...)` call: a severity and a human-readable message. -/
structure Report where
  severity : Severity
  message : String
deriving DecidableEq, Repr

/-- Host-defined operator result codes. -/
inductive OpResult
  | FINISHED
  | CANCELLED
deriving DecidableEq, Repr

/-- A timeline strip as the add-on sees it: `name` (unique identifier held
stable by the host), `frame_start`, `frame_final_duration`, `channel` and the
`select` flag.  The host keeps names unique, and object identity in the
embedding is identity of names. -/
structure Strip where
  name : String
  frame_start : ℤ
  frame_final_duration : ℤ
  channel : ℤ
  select : Bool
deriving DecidableEq, Repr

/-- The sequence editor session: its strip collection and the active-strip
pointer.  The pointer is modelled as a copy of the pointed-to strip; in the
host it aliases an entry of `sequences` with the same name. -/
structure SequenceEditor where
  sequences : List Strip
  active_strip : Option Strip
deriving DecidableEq, Repr

/-- A scene: its (possibly absent) sequence editor session and the current
playback frame.  `frame_set(frame_current)` at the end of `execute` is a pure
UI refresh and leaves this state unchanged. -/
structure Scene where
  sequence_editor : Option SequenceEditor
  frame_current : ℤ
deriving DecidableEq, Repr

/-- The slice of the host context the operator reads. -/
structure Context where
  scene : Option Scene
deriving DecidableEq, Repr

/-- Source lines 22-26: the poll predicate
`context.scene and context.scene.sequence_editor and
context.scene.sequence_editor.active_strip` (truthiness of each link). -/
def poll (ctx : Context) : Bool :=
  match ctx.scene with
  | none => false
  | some scene =>
    match scene.sequence_editor with
    | none => false
    | some sequencer => sequencer.active_strip.isSome

/-- The sort key of source line 70: `lambda s: (s.channel, s.frame_start)`. -/
def sortKey (s : Strip) : ℤ × ℤ :=
  (s.channel, s.frame_start)

/-- Python's ascending comparison on the `(channel, frame_start)` key tuples:
lexicographic order. -/
def stripLE (a b : Strip) : Prop :=
  a.channel < b.channel ∨ (a.channel = b.channel ∧ a.frame_start ≤ b.frame_start)

instance : DecidableRel stripLE := fun a b =>
  decidable_of_iff
    (a.channel < b.channel ∨ (a.channel = b.channel ∧ a.frame_start ≤ b.frame_start))
    Iff.rfl

instance : IsTotal Strip stripLE :=
  ⟨by intro a b; unfold stripLE; omega⟩

instance : IsTrans Strip stripLE :=
  ⟨by intro a b c; unfold stripLE; omega⟩

/-- Source `sequencer.sequences.get(name)`: the first strip with the given
name, if any. -/
def getByName (seqs : List Strip) (n : String) : Option Strip :=
  seqs.find? (fun s => s.name == n)

/-- Source lines 42-45: the working set
`list(set([active_strip] + [s for s in sequences if s.select and s != active_strip]))`
before the set reordering.  Strip identity is name identity. -/
def workingList (seqs : List Strip) (active : Strip) : List Strip :=
  active :: seqs.filter (fun s => s.select && s.name != active.name)

/-- Mutation of a host object through a reference: the first strip of the
collection with the given name is replaced by `f` of itself.  In the host the
reference aliases that entry. -/
def updateFirst (n : String) (f : Strip → Strip) : List Strip → List Strip
  | [] => []
  | s :: rest => if s.name = n then f s :: rest else s :: updateFirst n f rest

/-- Source lines 80-82: the three attribute writes applied to one strip.  -/
def mutateStrip (marker dur ch : ℤ) (s : Strip) : Strip :=
  { s with frame_final_duration := dur, frame_start := marker, channel := ch }

/-- Source lines 76-84: the mutation loop.  It walks the sorted working set
with the running frame cursor, rewriting duration, start and channel of each
strip and advancing the cursor by the per-strip duration. -/
def distributeLoop (dur ch : ℤ) : List Strip → ℤ → List Strip → List Strip
  | [], _, seqs => seqs
  | s :: rest, marker, seqs =>
    distributeLoop dur ch rest (marker + dur)
      (updateFirst s.name (mutateStrip marker dur ch) seqs)

/-- Source line 87: `bpy.ops.sequencer.select_all(action='DESELECT')`. -/
def deselectAll (seqs : List Strip) : List Strip :=
  seqs.map fun s => { s with select := false }

/-- Source lines 88-91: re-select every processed strip by recorded name;
a name that does not resolve is skipped. -/
def reselect (pns : List String) (seqs : List Strip) : List Strip :=
  match pns with
  | [] => seqs
  | n :: rest => reselect rest (updateFirst n (fun s => { s with select := true }) seqs)

/-- Source line 105: the test picking the fallback active strip, a processed
name resolving to a strip whose new start frame is the original start and
whose channel is the original channel. -/
def isRestoreCandidate (seqs : List Strip) (S0 ch : ℤ) (n : String) : Bool :=
  match getByName seqs n with
  | some c => c.frame_start == S0 && c.channel == ch
  | none => false

/-- Source lines 93-114: restore the active-strip pointer.  Prefer the strip
still carrying the original active name; otherwise, among the processed
names, the first one resolving to a strip at the original start frame and
channel; otherwise the first processed name, when it resolves.  `none` means
no assignment happens and the host keeps the previous pointer. -/
def restoreActive (seqs : List Strip) (origName : String) (pns : List String)
    (S0 ch : ℤ) : Option Strip :=
  match getByName seqs origName with
  | some s => some s
  | none =>
    match pns with
    | [] => none
    | n0 :: _ =>
      match pns.find? (isRestoreCandidate seqs S0 ch) with
      | some n => getByName seqs n
      | none => getByName seqs n0

/-- Source lines 28-123: the operator body.  `pySet` stands for the
unspecified iteration order of `list(set(...))`; the theorems constrain it
to produce a permutation of the (duplicate-free) list it receives.  Python's
stable `list.sort` is modelled by `List.insertionSort`, which computes the
unique stable sort. -/
def execute (pySet : List Strip → List Strip) (scene : Scene) :
    OpResult × List Report × Scene :=
  match scene.sequence_editor with
  | none => (OpResult.CANCELLED, [⟨Severity.WARNING, "No Video Sequence Editor found"⟩], scene)
  | some sequencer =>
    match sequencer.active_strip with
    | none => (OpResult.CANCELLED, [⟨Severity.WARNING, "No active strip selected"⟩], scene)
    | some active_strip =>
      let strips_to_process := pySet (workingList sequencer.sequences active_strip)
      if strips_to_process = [] then
        (OpResult.CANCELLED, [⟨Severity.INFO, "No strips to process (active or selected)"⟩], scene)
      else if strips_to_process.length = 0 then
        (OpResult.CANCELLED, [⟨Severity.WARNING, "Zero strips to process"⟩], scene)
      else if active_strip.frame_final_duration ≤ 0 then
        (OpResult.CANCELLED, [⟨Severity.WARNING, "Active strip has zero or negative duration"⟩], scene)
      else
        let num_strips := strips_to_process.length
        let new_duration_per_strip := newDurationPerStrip active_strip.frame_final_duration num_strips
        let sorted := List.insertionSort stripLE strips_to_process
        let processed_strip_names := sorted.map Strip.name
        let seqs1 := distributeLoop new_duration_per_strip active_strip.channel sorted
          active_strip.frame_start sequencer.sequences
        let seqs2 := reselect processed_strip_names (deselectAll seqs1)
        let newActive :=
          match restoreActive seqs2 active_strip.name processed_strip_names
              active_strip.frame_start active_strip.channel with
          | some s => some s
          | none => sequencer.active_strip
        (OpResult.FINISHED,
          [⟨Severity.INFO,
            "Processed " ++ toString num_strips ++ " strips. New duration per strip: " ++
              toString new_duration_per_strip ++ ". All moved to channel " ++
              toString (active_strip.channel + 1) ++ "."⟩],
          { scene with
              sequence_editor := some { sequences := seqs2, active_strip := newActive } })

/-- The sorted working set of a run (source line 70 applied to the working
set as built). -/
def sortedWorking (pySet : List Strip → List Strip) (seqs : List Strip)
    (active : Strip) : List Strip :=
  List.insertionSort stripLE (pySet (workingList seqs active))

/-- The per-strip duration of a run (source line 64). -/
def perStripDuration (pySet : List Strip → List Strip) (seqs : List Strip)
    (active : Strip) : ℤ :=
  newDurationPerStrip active.frame_final_duration (pySet (workingList seqs active)).length

/-- The strip collection after the mutation loop and the reselection pass of
a successful run. -/
def processedSequences (pySet : List Strip → List Strip) (seqs : List Strip)
    (active : Strip) : List Strip :=
  reselect ((sortedWorking pySet seqs active).map Strip.name)
    (deselectAll
      (distributeLoop (perStripDuration pySet seqs active) active.channel
        (sortedWorking pySet seqs active) active.frame_start seqs))

/-- The strip collection of the scene an `execute` run returns. -/
def resultSequences (r : OpResult × List Report × Scene) : List Strip :=
  match r.2.2.sequence_editor with
  | some sequencer => sequencer.sequences
  | none => []

/-- The active-strip pointer after a successful run: the result of the
restore chain when it assigns, the previous pointer otherwise. -/
def activeAfter (pySet : List Strip → List Strip) (sequencer : SequenceEditor)
    (active : Strip) : Option Strip :=
  match restoreActive (processedSequences pySet sequencer.sequences active) active.name
      ((sortedWorking pySet sequencer.sequences active).map Strip.name)
      active.frame_start active.channel with
  | some s => some s
  | none => sequencer.active_strip

/-- The informational report of a successful run (source line 117). -/
def successReport (pySet : List Strip → List Strip) (seqs : List Strip)
    (active : Strip) : Report :=
  ⟨Severity.INFO,
    "Processed " ++ toString (pySet (workingList seqs active)).length ++
      " strips. New duration per strip: " ++ toString (perStripDuration pySet seqs active) ++
      ". All moved to channel " ++ toString (active.channel + 1) ++ "."⟩

/-- A selected strip with sort key `(1, 0)` and duration 10, used as active
strip of probe scenes. -/
def tieActive : Strip :=
  { name := "A", frame_start := 0, frame_final_duration := 10, channel := 1, select := true }

/-- An editor session holding `tieActive` plus a second selected strip with
the same sort key `(1, 0)`. -/
def tieEditor : SequenceEditor :=
  { sequences :=
      [ tieActive,
        { name := "B", frame_start := 0, frame_final_duration := 5, channel := 1, select := true } ],
    active_strip := some tieActive }

/-- A scene with two selected strips sharing the sort key `(1, 0)`; the one
named `"A"` is active.  Exercises the tie-breaking of the sort. -/
def tieScene : Scene :=
  { sequence_editor := some tieEditor, frame_current := 0 }

/-- An editor session holding `tieActive` plus a second selected strip whose
sort key `(1, 3)` differs from the active one's. -/
def keysEditor : SequenceEditor :=
  { sequences :=
      [ tieActive,
        { name := "B", frame_start := 3, frame_final_duration := 5, channel := 1, select := true } ],
    active_strip := some tieActive }

/-- A scene with two selected strips whose sort keys differ. -/
def keysScene : Scene :=
  { sequence_editor := some keysEditor, frame_current := 0 }

/-- A selected strip of duration 90 at frame 0 on channel 1, the active strip
of `demoScene`. -/
def demoActive : Strip :=
  { name := "A", frame_start := 0, frame_final_duration := 90, channel := 1, select := true }

/-- An editor session with three selected strips on three channels plus one
unselected strip; `demoActive` is active. -/
def demoEditor : SequenceEditor :=
  { sequences :=
      [ demoActive,
        { name := "B", frame_start := 200, frame_final_duration := 40, channel := 2, select := true },
        { name := "C", frame_start := -50, frame_final_duration := 7, channel := 0, select := true },
        { name := "D", frame_start := 400, frame_final_duration := 12, channel := 3, select := false } ],
    active_strip := some demoActive }

/-- A scene with three selected strips and one unselected bystander strip. -/
def demoScene : Scene :=
  { sequence_editor := some demoEditor, frame_current := 25 }

/-- A one-strip editor session whose active strip has duration `0`. -/
def zeroDurEditor : SequenceEditor :=
  { sequences :=
      [ { name := "A", frame_start := 0, frame_final_duration := 0, channel := 1, select := true } ],
    active_strip := some
      { name := "A", frame_start := 0, frame_final_duration := 0, channel := 1, select := true } }

/-- A scene whose active strip has duration `0`. -/
def zeroDurScene : Scene :=
  { sequence_editor := some zeroDurEditor, frame_current := 0 }

/-- Rewrites `pyRound` through euclidean division: for a positive divisor the
floor quotient is `D / N` and the doubled remainder `2 * (D % N)` decides the
rounding direction. -/
theorem pyRound_eq_ediv (D : ℤ) (N : ℕ) (hN : 0 < N) :
    pyRound D N =
      if 2 * (D % (N : ℤ)) < (N : ℤ) then D / (N : ℤ)
      else if (N : ℤ) < 2 * (D % (N : ℤ)) then D / (N : ℤ) + 1
      else if (D / (N : ℤ)) % 2 = 0 then D / (N : ℤ) else D / (N : ℤ) + 1 := by
  have hNpos : (0 : ℤ) < (N : ℤ) := by exact_mod_cast hN
  have hfd : D.fdiv (N : ℤ) = D / (N : ℤ) := Int.fdiv_eq_ediv D (le_of_lt hNpos)
  have hrem : D - D / (N : ℤ) * (N : ℤ) = D % (N : ℤ) := by
    have h := Int.ediv_add_emod D (N : ℤ)
    linarith
  simp only [pyRound, hfd, hrem]

theorem length_updateFirst (n : String) (f : Strip → Strip) (l : List Strip) :
    (updateFirst n f l).length = l.length := by
  induction l with
  | nil => rfl
  | cons s rest ih =>
    simp only [updateFirst]
    split <;> simp [ih]

theorem map_name_updateFirst (n : String) (f : Strip → Strip)
    (hf : ∀ s, (f s).name = s.name) (l : List Strip) :
    (updateFirst n f l).map Strip.name = l.map Strip.name := by
  induction l with
  | nil => rfl
  | cons s rest ih =>
    simp only [updateFirst]
    split <;> simp [ih, hf]

theorem getByName_cons (s : Strip) (rest : List Strip) (n : String) :
    getByName (s :: rest) n = if s.name = n then some s else getByName rest n := by
  by_cases h : s.name = n
  · rw [getByName, List.find?_cons_of_pos _ (by simp [h]), if_pos h]
  · rw [getByName, List.find?_cons_of_neg _ (by simp [h]), if_neg h]
    rfl

theorem getByName_updateFirst_of_ne (n m : String) (f : Strip → Strip)
    (hf : ∀ s, (f s).name = s.name) (hmn : m ≠ n) (l : List Strip) :
    getByName (updateFirst n f l) m = getByName l m := by
  induction l with
  | nil => rfl
  | cons s rest ih =>
    simp only [updateFirst]
    split
    · rename_i hs
      rw [getByName_cons, getByName_cons, if_neg (by rw [hf]; rw [hs]; exact fun h => hmn h.symm),
        if_neg (by rw [hs]; exact fun h => hmn h.symm)]
    · rw [getByName_cons, getByName_cons]
      by_cases hs : s.name = m
      · rw [if_pos hs, if_pos hs]
      · rw [if_neg hs, if_neg hs]
        exact ih

theorem getByName_updateFirst_self (n : String) (f : Strip → Strip)
    (hf : ∀ s, (f s).name = s.name) (l : List Strip) :
    getByName (updateFirst n f l) n = (getByName l n).map f := by
  induction l with
  | nil => rfl
  | cons s rest ih =>
    simp only [updateFirst]
    split
    · rename_i hs
      rw [getByName_cons, getByName_cons, if_pos (by rw [hf]; exact hs), if_pos hs]
      rfl
    · rename_i hs
      rw [getByName_cons, getByName_cons, if_neg hs, if_neg hs]
      exact ih

theorem get?_updateFirst_of_name_ne (n : String) (f : Strip → Strip) (l : List Strip)
    (i : ℕ) (s : Strip) (hg : l.get? i = some s) (h : s.name ≠ n) :
    (updateFirst n f l).get? i = some s := by
  induction l generalizing i with
  | nil => simp at hg
  | cons t rest ih =>
    cases i with
    | zero =>
      simp only [List.get?] at hg
      cases hg
      simp only [updateFirst, if_neg h, List.get?]
    | succ j =>
      simp only [List.get?] at hg
      by_cases ht : t.name = n
      · simp only [updateFirst, if_pos ht, List.get?]
        exact hg
      · simp only [updateFirst, if_neg ht, List.get?]
        exact ih j hg

theorem getByName_mem (seqs : List Strip) (n : String) (s : Strip)
    (h : getByName seqs n = some s) : s ∈ seqs ∧ s.name = n := by
  refine ⟨List.mem_of_find?_eq_some h, ?_⟩
  have h2 := List.find?_some h
  simpa using h2

theorem getByName_eq_some_self (seqs : List Strip) (s : Strip)
    (hnd : (seqs.map Strip.name).Nodup) (hs : s ∈ seqs) :
    getByName seqs s.name = some s := by
  induction seqs with
  | nil => simp at hs
  | cons t rest ih =>
    rcases List.mem_cons.mp hs with h | h
    · subst h
      rw [getByName_cons, if_pos rfl]
    · have hne : t.name ≠ s.name := by
        intro he
        have h1 : s.name ∈ rest.map Strip.name := List.mem_map_of_mem Strip.name h
        have h2 : t.name ∉ rest.map Strip.name := by
          simpa using (List.nodup_cons.mp hnd).1
        exact h2 (he ▸ h1)
      rw [getByName_cons, if_neg hne]
      exact ih (List.nodup_cons.mp hnd).2 h

theorem mutateStrip_name (marker dur ch : ℤ) (s : Strip) :
    (mutateStrip marker dur ch s).name = s.name := rfl

theorem length_distributeLoop (dur ch : ℤ) (sorted : List Strip) (m : ℤ)
    (seqs : List Strip) :
    (distributeLoop dur ch sorted m seqs).length = seqs.length := by
  induction sorted generalizing m seqs with
  | nil => rfl
  | cons s rest ih =>
    simp only [distributeLoop]
    rw [ih, length_updateFirst]

theorem map_name_distributeLoop (dur ch : ℤ) (sorted : List Strip) (m : ℤ)
    (seqs : List Strip) :
    (distributeLoop dur ch sorted m seqs).map Strip.name = seqs.map Strip.name := by
  induction sorted generalizing m seqs with
  | nil => rfl
  | cons s rest ih =>
    simp only [distributeLoop]
    rw [ih, map_name_updateFirst s.name (mutateStrip m dur ch) (fun t => rfl) seqs]

theorem getByName_distributeLoop_not_mem (dur ch : ℤ) (sorted : List Strip) (m : ℤ)
    (seqs : List Strip) (n : String) (h : n ∉ sorted.map Strip.name) :
    getByName (distributeLoop dur ch sorted m seqs) n = getByName seqs n := by
  induction sorted generalizing m seqs with
  | nil => rfl
  | cons s rest ih =>
    simp only [List.map_cons, List.mem_cons, not_or] at h
    simp only [distributeLoop]
    rw [ih _ _ h.2,
      getByName_updateFirst_of_ne s.name n (mutateStrip m dur ch) (fun t => rfl) h.1 seqs]

theorem getByName_distributeLoop (dur ch : ℤ) (sorted : List Strip) (m : ℤ)
    (seqs : List Strip) (hnd : (sorted.map Strip.name).Nodup)
    (i : ℕ) (s : Strip) (hg : sorted.get? i = some s) :
    getByName (distributeLoop dur ch sorted m seqs) s.name =
      (getByName seqs s.name).map (mutateStrip (m + i * dur) dur ch) := by
  induction sorted generalizing m seqs i with
  | nil => simp at hg
  | cons t rest ih =>
    simp only [List.map_cons, List.nodup_cons] at hnd
    cases i with
    | zero =>
      simp only [List.get?] at hg
      cases hg
      simp only [distributeLoop]
      rw [getByName_distributeLoop_not_mem _ _ _ _ _ _ hnd.1,
        getByName_updateFirst_self s.name (mutateStrip m dur ch) (fun u => rfl) seqs]
      norm_num
    | succ j =>
      simp only [List.get?] at hg
      have hsname : s.name ≠ t.name := by
        intro he
        have h1 : s.name ∈ rest.map Strip.name :=
          List.mem_map_of_mem Strip.name (List.get?_mem hg)
        exact hnd.1 (he ▸ h1)
      simp only [distributeLoop]
      rw [ih _ _ hnd.2 _ hg,
        getByName_updateFirst_of_ne t.name s.name (mutateStrip m dur ch) (fun u => rfl) hsname seqs]
      have harith : m + dur + (j : ℤ) * dur = m + ((j : ℕ) + 1 : ℕ) * dur := by
        push_cast
        ring
      rw [harith]

theorem get?_distributeLoop_of_not_mem (dur ch : ℤ) (sorted : List Strip) (m : ℤ)
    (seqs : List Strip) (i : ℕ) (s : Strip) (hg : seqs.get? i = some s)
    (h : s.name ∉ sorted.map Strip.name) :
    (distributeLoop dur ch sorted m seqs).get? i = some s := by
  induction sorted generalizing m seqs with
  | nil => exact hg
  | cons t rest ih =>
    simp only [List.map_cons, List.mem_cons, not_or] at h
    simp only [distributeLoop]
    exact ih _ _ (get?_updateFirst_of_name_ne _ _ _ _ _ hg h.1) h.2

theorem length_deselectAll (seqs : List Strip) :
    (deselectAll seqs).length = seqs.length := by
  simp [deselectAll]

theorem map_name_deselectAll (seqs : List Strip) :
    (deselectAll seqs).map Strip.name = seqs.map Strip.name := by
  simp [deselectAll, Function.comp]

theorem getByName_deselectAll (seqs : List Strip) (n : String) :
    getByName (deselectAll seqs) n =
      (getByName seqs n).map (fun s => { s with select := false }) := by
  induction seqs with
  | nil => rfl
  | cons s rest ih =>
    simp only [deselectAll, List.map_cons]
    rw [getByName_cons, getByName_cons]
    by_cases h : s.name = n
    · rw [if_pos h, if_pos h]
      rfl
    · rw [if_neg h, if_neg h]
      exact ih

theorem get?_deselectAll (seqs : List Strip) (i : ℕ) :
    (deselectAll seqs).get? i = (seqs.get? i).map (fun s => { s with select := false }) := by
  simp [deselectAll, List.get?_map]

theorem length_reselect (pns : List String) (seqs : List Strip) :
    (reselect pns seqs).length = seqs.length := by
  induction pns generalizing seqs with
  | nil => rfl
  | cons n rest ih =>
    simp only [reselect]
    rw [ih, length_updateFirst]

theorem map_name_reselect (pns : List String) (seqs : List Strip) :
    (reselect pns seqs).map Strip.name = seqs.map Strip.name := by
  induction pns generalizing seqs with
  | nil => rfl
  | cons n rest ih =>
    simp only [reselect]
    rw [ih, map_name_updateFirst n (fun s => { s with select := true }) (fun t => rfl) seqs]

theorem getByName_reselect_not_mem (pns : List String) (seqs : List Strip)
    (n : String) (h : n ∉ pns) :
    getByName (reselect pns seqs) n = getByName seqs n := by
  induction pns generalizing seqs with
  | nil => rfl
  | cons m rest ih =>
    simp only [List.mem_cons, not_or] at h
    simp only [reselect]
    rw [ih _ h.2,
      getByName_updateFirst_of_ne m n (fun s => { s with select := true }) (fun t => rfl) h.1 seqs]

theorem getByName_reselect_mem (pns : List String) (seqs : List Strip)
    (n : String) (hnd : pns.Nodup) (h : n ∈ pns) :
    getByName (reselect pns seqs) n =
      (getByName seqs n).map (fun s => { s with select := true }) := by
  induction pns generalizing seqs with
  | nil => simp at h
  | cons m rest ih =>
    simp only [List.nodup_cons] at hnd
    simp only [reselect]
    rcases List.mem_cons.mp h with he | he
    · subst he
      rw [getByName_reselect_not_mem _ _ _ hnd.1,
        getByName_updateFirst_self n (fun s => { s with select := true }) (fun t => rfl) seqs]
    · have hne : n ≠ m := fun he2 => hnd.1 (he2 ▸ he)
      rw [ih _ hnd.2 he,
        getByName_updateFirst_of_ne m n (fun s => { s with select := true }) (fun t => rfl) hne seqs]

theorem get?_reselect_of_not_mem (pns : List String) (seqs : List Strip)
    (i : ℕ) (s : Strip) (hg : seqs.get? i = some s) (h : s.name ∉ pns) :
    (reselect pns seqs).get? i = some s := by
  induction pns generalizing seqs with
  | nil => exact hg
  | cons m rest ih =>
    simp only [List.mem_cons, not_or] at h
    simp only [reselect]
    exact ih _ (get?_updateFirst_of_name_ne _ _ _ _ _ hg h.1) h.2

theorem workingList_ne_nil (seqs : List Strip) (active : Strip) :
    workingList seqs active ≠ [] := by
  simp [workingList]

theorem mem_workingList_sub (seqs : List Strip) (active : Strip)
    (hmem : active ∈ seqs) (s : Strip) (hs : s ∈ workingList seqs active) :
    s ∈ seqs := by
  rcases List.mem_cons.mp hs with h | h
  · exact h ▸ hmem
  · exact List.mem_of_mem_filter h

theorem nodup_names_workingList (seqs : List Strip) (active : Strip)
    (hnd : (seqs.map Strip.name).Nodup) :
    ((workingList seqs active).map Strip.name).Nodup := by
  simp only [workingList, List.map_cons, List.nodup_cons]
  constructor
  · intro h
    rcases List.mem_map.mp h with ⟨s, hs, hname⟩
    have h2 := (List.mem_filter.mp hs).2
    rw [Bool.and_eq_true] at h2
    rw [hname] at h2
    simp at h2
  · have hsub : (seqs.filter (fun s => s.select && s.name != active.name)).map Strip.name
        |>.Sublist (seqs.map Strip.name) :=
      List.Sublist.map Strip.name (List.filter_sublist seqs)
    exact hnd.sublist hsub

theorem stripLE_refl (s : Strip) : stripLE s s := by
  unfold stripLE
  omega

theorem stripLE_of_sortKey_eq (s t : Strip) (h : sortKey s = sortKey t) : stripLE s t := by
  have h1 : s.channel = t.channel := congrArg Prod.fst h
  have h2 : s.frame_start = t.frame_start := congrArg Prod.snd h
  unfold stripLE
  omega

theorem sortKey_eq_of_stripLE_both (s t : Strip) (h1 : stripLE s t) (h2 : stripLE t s) :
    sortKey s = sortKey t := by
  unfold stripLE at h1 h2
  unfold sortKey
  rw [Prod.mk.injEq]
  omega

theorem eq_of_perm_of_sorted_keyInj (u : List Strip) :
    ∀ (v : List Strip), u.Perm v → u.Sorted stripLE → v.Sorted stripLE →
      (∀ s ∈ u, ∀ t ∈ u, sortKey s = sortKey t → s = t) → u = v := by
  induction u with
  | nil =>
    intro v hp _ _ _
    exact hp.nil_eq
  | cons x u2 ih =>
    intro v hp hu hv hinj
    cases v with
    | nil => exact absurd hp.symm.nil_eq (by simp)
    | cons y v2 =>
      have hxv : x ∈ y :: v2 := hp.subset (List.mem_cons_self _ _)
      have hyu : y ∈ x :: u2 := hp.symm.subset (List.mem_cons_self _ _)
      have hA : stripLE x y := by
        rcases List.mem_cons.mp hyu with h | h
        · exact h ▸ stripLE_refl x
        · exact List.rel_of_sorted_cons hu y h
      have hB : stripLE y x := by
        rcases List.mem_cons.mp hxv with h | h
        · exact h ▸ stripLE_refl y
        · exact List.rel_of_sorted_cons hv x h
      have hxy : x = y :=
        hinj x (List.mem_cons_self _ _) y hyu (sortKey_eq_of_stripLE_both x y hA hB)
      subst hxy
      have hp2 : u2.Perm v2 := hp.cons_inv
      have h3 : u2 = v2 :=
        ih v2 hp2 hu.of_cons hv.of_cons
          (fun s hs t ht h => hinj s (List.mem_cons_of_mem _ hs) t (List.mem_cons_of_mem _ ht) h)
      rw [h3]

theorem insertionSort_eq_of_perm_keyInj (l1 l2 : List Strip) (hp : l1.Perm l2)
    (hinj : ∀ s ∈ l1, ∀ t ∈ l1, sortKey s = sortKey t → s = t) :
    List.insertionSort stripLE l1 = List.insertionSort stripLE l2 := by
  refine eq_of_perm_of_sorted_keyInj _ _
    ((List.perm_insertionSort _ l1).trans (hp.trans (List.perm_insertionSort _ l2).symm))
    (List.sorted_insertionSort _ l1) (List.sorted_insertionSort _ l2) ?_
  intro s hs t ht h
  exact hinj s ((List.perm_insertionSort _ l1).subset hs)
    t ((List.perm_insertionSort _ l1).subset ht) h

theorem execute_eq_of_success (pySet : List Strip → List Strip) (scene : Scene)
    (sequencer : SequenceEditor) (active : Strip)
    (hed : scene.sequence_editor = some sequencer)
    (hact : sequencer.active_strip = some active)
    (hne : pySet (workingList sequencer.sequences active) ≠ [])
    (hdur : 0 < active.frame_final_duration) :
    execute pySet scene =
      (OpResult.FINISHED, [successReport pySet sequencer.sequences active],
        { scene with sequence_editor := some (SequenceEditor.mk
            (processedSequences pySet sequencer.sequences active)
            (activeAfter pySet sequencer active)) }) := by
  have hlen : ¬ (pySet (workingList sequencer.sequences active)).length = 0 := by
    simpa [List.length_eq_zero] using hne
  have hdur2 : ¬ active.frame_final_duration ≤ 0 := not_le.mpr hdur
  simp only [execute, hed, hact, if_neg hne, if_neg hlen, if_neg hdur2]
  simp only [processedSequences, sortedWorking, perStripDuration, activeAfter, successReport]
  rw [hact]

theorem getByName_processedSequences (pySet : List Strip → List Strip)
    (seqs : List Strip) (active : Strip)
    (hnd : (seqs.map Strip.name).Nodup)
    (hmem : active ∈ seqs)
    (hperm : (pySet (workingList seqs active)).Perm (workingList seqs active))
    (i : ℕ) (s : Strip) (hg : (sortedWorking pySet seqs active).get? i = some s) :
    getByName (processedSequences pySet seqs active) s.name =
      some { name := s.name,
             frame_start := active.frame_start + i * perStripDuration pySet seqs active,
             frame_final_duration := perStripDuration pySet seqs active,
             channel := active.channel,
             select := true } := by
  have hsp : (sortedWorking pySet seqs active).Perm (workingList seqs active) :=
    (List.perm_insertionSort _ _).trans hperm
  have hnames : ((sortedWorking pySet seqs active).map Strip.name).Nodup :=
    ((hsp.map Strip.name).nodup_iff).mpr (nodup_names_workingList seqs active hnd)
  have hsmem : s ∈ workingList seqs active := hsp.subset (List.get?_mem hg)
  have hseqmem : s ∈ seqs := mem_workingList_sub _ _ hmem _ hsmem
  have hself : getByName seqs s.name = some s := getByName_eq_some_self _ _ hnd hseqmem
  have hpns : s.name ∈ (sortedWorking pySet seqs active).map Strip.name :=
    List.mem_map_of_mem _ (List.get?_mem hg)
  unfold processedSequences
  rw [getByName_reselect_mem _ _ _ hnames hpns, getByName_deselectAll,
    getByName_distributeLoop _ _ _ _ _ hnames _ _ hg, hself]
  rfl

theorem map_name_processedSequences (pySet : List Strip → List Strip)
    (seqs : List Strip) (active : Strip) :
    (processedSequences pySet seqs active).map Strip.name = seqs.map Strip.name := by
  unfold processedSequences
  rw [map_name_reselect, map_name_deselectAll, map_name_distributeLoop]

/-- Claim C5, counterexample: for `D = 1`, `N = 3` (three strips sharing one
frame) each strip is clamped to 1 frame, the new total is 3 and the drift
`|3 * max(1, round(1/3)) - 1| = 2` exceeds `N/2 = 1.5`, refuting the claimed
bound `|N * max(1, round(D/N)) - D| <= N/2` at a positive duration and a
working set of at least one strip. -/
theorem sum_durations_drift_exceeds_half_N :
    0 < (1 : ℤ) ∧ 1 ≤ 3 ∧
      ¬ (2 * ((3 : ℤ) * newDurationPerStrip 1 3 - 1).natAbs ≤ 3) := by
  refine ⟨by decide, by decide, by decide⟩

/-- Claim C5 (amended): when the clamp `max(1, ...)` is inactive or harmless,
that is whenever `N <= 2 * D`, the sum `N * max(1, round(D/N))` of the new
per-strip durations differs from the original total `D` by at most `N/2`
frames (stated doubled to stay in integers).  When `2 * D < N` the sum is `N`
and the drift `N - D` can exceed `N/2`, as the counterexample shows. -/
theorem sum_durations_drift_bound_when_no_clamp (D : ℤ) (N : ℕ) (hD : 0 < D)
    (hN : 1 ≤ N) (hclamp : (N : ℤ) ≤ 2 * D) :
    2 * ((N : ℤ) * newDurationPerStrip D N - D).natAbs ≤ N := by
  have hNpos : (0 : ℤ) < (N : ℤ) := by exact_mod_cast hN
  have h1 : (N : ℤ) * (D / (N : ℤ)) + D % (N : ℤ) = D := Int.ediv_add_emod D (N : ℤ)
  have h2 : 0 ≤ D % (N : ℤ) := Int.emod_nonneg D (ne_of_gt hNpos)
  have h3 : D % (N : ℤ) < (N : ℤ) := Int.emod_lt_of_pos D hNpos
  have hq0 : 0 ≤ D / (N : ℤ) := Int.ediv_nonneg (le_of_lt hD) (le_of_lt hNpos)
  rw [newDurationPerStrip, pyRound_eq_ediv D N (by omega)]
  set q := D / (N : ℤ) with hqdef
  set r := D % (N : ℤ) with hrdef
  have hNq : (N : ℤ) * q = D - r := by linarith
  have hNq1 : (N : ℤ) * (q + 1) = D - r + N := by
    have h4 : (N : ℤ) * (q + 1) = (N : ℤ) * q + N := by ring
    rw [h4, hNq]
  split_ifs with c1 c2 c3
  · rcases eq_or_lt_of_le hq0 with hq | hq
    · rw [max_eq_left (by omega), mul_one]
      have h5 : (N : ℤ) * q = 0 := by rw [← hq]; ring
      omega
    · rw [max_eq_right (by omega), hNq]
      omega
  · rw [max_eq_right (by omega), hNq1]
    omega
  · rcases eq_or_lt_of_le hq0 with hq | hq
    · rw [max_eq_left (by omega), mul_one]
      have h5 : (N : ℤ) * q = 0 := by rw [← hq]; ring
      omega
    · rw [max_eq_right (by omega), hNq]
      omega
  · rw [max_eq_right (by omega), hNq1]
    omega

/-- Witness for the amended drift bound at `D = 30`, `N = 3`. -/
theorem sum_durations_drift_bound_when_no_clamp_witness :
    2 * ((3 : ℤ) * newDurationPerStrip 30 3 - 30).natAbs ≤ 3 :=
  sum_durations_drift_bound_when_no_clamp 30 3 (by decide) (by decide) (by decide)

/-- Claim C6, counterexample: `D = 5`, `N = 2` has quotient `5/2` with
fractional part exactly one half, the floor is `2`, yet `round(5/2) = 2`,
not `floor + 1 = 3`: CPython rounds halves to the even neighbour, not away
from zero. -/
theorem pyRound_half_not_away_from_zero :
    2 * ((5 : ℤ) % (2 : ℤ)) = 2 ∧ (5 : ℤ).fdiv 2 = 2 ∧ pyRound 5 2 = 2 ∧
      pyRound 5 2 ≠ (5 : ℤ).fdiv 2 + 1 := by
  refine ⟨by decide, by decide, by decide, by decide⟩

/-- Claim C6 (amended): when the quotient `D / N` has fractional part exactly
one half (expressed as `2 * (D % N) = N`), the rounding picks the even
neighbour: the floor `D / N` when it is even, `D / N + 1` when it is odd
(round-half-to-even, not round-half-away-from-zero). -/
theorem pyRound_half_to_even (D : ℤ) (N : ℕ) (hD : 0 < D) (hN : 0 < N)
    (hhalf : 2 * (D % (N : ℤ)) = (N : ℤ)) :
    pyRound D N = if (D / (N : ℤ)) % 2 = 0 then D / (N : ℤ) else D / (N : ℤ) + 1 := by
  rw [pyRound_eq_ediv D N hN, if_neg (by omega), if_neg (by omega)]

/-- Witness for the half-to-even rule at `D = 5`, `N = 2`. -/
theorem pyRound_half_to_even_witness :
    pyRound 5 2 = if ((5 : ℤ) / (2 : ℤ)) % 2 = 0 then (5 : ℤ) / 2 else (5 : ℤ) / 2 + 1 :=
  pyRound_half_to_even 5 2 (by decide) (by decide) (by decide)

/-- Claim C8 (confirmed): the poll predicate holds exactly when a scene
exists, the scene has a sequence editor session and the session has an
active strip; with any link missing it is false, making the operator
unavailable. -/
theorem poll_iff_scene_editor_active (ctx : Context) :
    poll ctx = true ↔
      ∃ scene, ctx.scene = some scene ∧
        ∃ sequencer, scene.sequence_editor = some sequencer ∧
          ∃ active, sequencer.active_strip = some active := by
  cases hsc : ctx.scene with
  | none => simp [poll, hsc]
  | some scene =>
    cases hed : scene.sequence_editor with
    | none => simp [poll, hsc, hed]
    | some sequencer =>
      cases hact : sequencer.active_strip with
      | none => simp [poll, hsc, hed, hact]
      | some a => simp [poll, hsc, hed, hact]

/-- Witness for the poll characterisation on a context with all three links
present. -/
theorem poll_iff_scene_editor_active_witness :
    poll ⟨some ⟨some ⟨[], some tieActive⟩, 0⟩⟩ = true :=
  (poll_iff_scene_editor_active _).mpr ⟨_, rfl, _, rfl, _, rfl⟩

/-- Claim C4 (confirmed): on every guarded precondition failure, namely a
missing editor session, a missing active strip, an empty working set or a
non-positive active duration, `execute` returns `CANCELLED`, leaves the
scene (strips, selection, active pointer, playback frame) untouched, and
emits exactly one report of severity `WARNING` or `INFO`.  In the embedding
`execute` is a total function, so no exception reaches the host. -/
theorem execute_guard_cancels_without_mutation (pySet : List Strip → List Strip)
    (scene : Scene)
    (h : scene.sequence_editor = none ∨
      (∃ sequencer, scene.sequence_editor = some sequencer ∧
        sequencer.active_strip = none) ∨
      (∃ sequencer active, scene.sequence_editor = some sequencer ∧
        sequencer.active_strip = some active ∧
        pySet (workingList sequencer.sequences active) = []) ∨
      (∃ sequencer active, scene.sequence_editor = some sequencer ∧
        sequencer.active_strip = some active ∧
        active.frame_final_duration ≤ 0)) :
    (execute pySet scene).1 = OpResult.CANCELLED ∧
    (execute pySet scene).2.2 = scene ∧
    ∃ rep, (execute pySet scene).2.1 = [rep] ∧
      (rep.severity = Severity.WARNING ∨ rep.severity = Severity.INFO) := by
  rcases h with h1 | ⟨sq, hed, hact⟩ | ⟨sq, a, hed, hact, hemp⟩ | ⟨sq, a, hed, hact, hdur⟩
  · refine ⟨?_, ?_, ⟨Severity.WARNING, "No Video Sequence Editor found"⟩, ?_, Or.inl rfl⟩ <;>
      simp [execute, h1]
  · refine ⟨?_, ?_, ⟨Severity.WARNING, "No active strip selected"⟩, ?_, Or.inl rfl⟩ <;>
      simp [execute, hed, hact]
  · refine ⟨?_, ?_, ⟨Severity.INFO, "No strips to process (active or selected)"⟩, ?_, Or.inr rfl⟩ <;>
      simp [execute, hed, hact, hemp]
  · by_cases hemp : pySet (workingList sq.sequences a) = []
    · refine ⟨?_, ?_, ⟨Severity.INFO, "No strips to process (active or selected)"⟩, ?_, Or.inr rfl⟩ <;>
        simp [execute, hed, hact, hemp]
    · have hlen : ¬ (pySet (workingList sq.sequences a)).length = 0 := by
        simpa [List.length_eq_zero] using hemp
      refine ⟨?_, ?_, ⟨Severity.WARNING, "Active strip has zero or negative duration"⟩, ?_, Or.inl rfl⟩ <;>
        simp [execute, hed, hact, hemp, hlen, hdur]

/-- Witness for the guard behaviour on a scene with no editor session. -/
theorem execute_guard_cancels_without_mutation_witness :
    (execute (fun l => l) (Scene.mk none 0)).1 = OpResult.CANCELLED :=
  (execute_guard_cancels_without_mutation (fun l => l) (Scene.mk none 0) (Or.inl rfl)).1

/-- Claim C10 (confirmed): once the active strip exists the working set as
built contains it, so it is never empty, its image under the set reordering
keeps a positive length, and the two defensive guards for an empty working
set or a zero strip count can never produce the cancellation: the only
cancellation reachable past the active-strip guard is the non-positive
duration report. -/
theorem workingList_nonempty_guards_unreachable (pySet : List Strip → List Strip)
    (scene : Scene) (sequencer : SequenceEditor) (active : Strip)
    (hed : scene.sequence_editor = some sequencer)
    (hact : sequencer.active_strip = some active)
    (hperm : (pySet (workingList sequencer.sequences active)).Perm
      (workingList sequencer.sequences active)) :
    pySet (workingList sequencer.sequences active) ≠ [] ∧
    (pySet (workingList sequencer.sequences active)).length ≠ 0 ∧
    ((execute pySet scene).1 = OpResult.CANCELLED →
      (execute pySet scene).2.1 =
        [⟨Severity.WARNING, "Active strip has zero or negative duration"⟩]) := by
  have hne : pySet (workingList sequencer.sequences active) ≠ [] := by
    intro h
    rw [h] at hperm
    exact workingList_ne_nil _ _ hperm.nil_eq.symm
  have hlen : ¬ (pySet (workingList sequencer.sequences active)).length = 0 := by
    simpa [List.length_eq_zero] using hne
  refine ⟨hne, hlen, ?_⟩
  by_cases hdur : active.frame_final_duration ≤ 0
  · intro _
    simp [execute, hed, hact, hne, hlen, hdur]
  · rw [execute_eq_of_success pySet scene sequencer active hed hact hne (by omega)]
    intro h
    simp at h

/-- Witness for the guard unreachability on the zero-duration scene, where
the only cancellation is the duration report. -/
theorem workingList_nonempty_guards_unreachable_witness :
    (execute (fun l => l) zeroDurScene).2.1 =
      [⟨Severity.WARNING, "Active strip has zero or negative duration"⟩] :=
  (workingList_nonempty_guards_unreachable (fun l => l) zeroDurScene zeroDurEditor
    { name := "A", frame_start := 0, frame_final_duration := 0, channel := 1, select := true }
    rfl rfl (List.Perm.refl _)).2.2 (by decide)

/-- Claim C7 (confirmed): the active-pointer restore follows the exact
preference chain: first the strip whose name is the recorded original active
name; if that lookup fails, the first processed name resolving to a strip at
the original start frame and original channel; if that also fails, the strip
named by the first entry of the processed-name list. -/
theorem restoreActive_preference_chain (seqs : List Strip) (origName : String)
    (pns : List String) (S0 ch : ℤ) :
    (∀ s, getByName seqs origName = some s →
      restoreActive seqs origName pns S0 ch = some s) ∧
    (getByName seqs origName = none →
      ∀ n, pns.find? (isRestoreCandidate seqs S0 ch) = some n →
        restoreActive seqs origName pns S0 ch = getByName seqs n) ∧
    (getByName seqs origName = none →
      pns.find? (isRestoreCandidate seqs S0 ch) = none →
      ∀ n0 rest, pns = n0 :: rest →
        restoreActive seqs origName pns S0 ch = getByName seqs n0) := by
  refine ⟨?_, ?_, ?_⟩
  · intro s h
    simp [restoreActive, h]
  · intro h n hf
    cases pns with
    | nil => simp at hf
    | cons n0 rest => simp [restoreActive, h, hf]
  · intro h hf n0 rest hp
    subst hp
    simp [restoreActive, h, hf]

/-- Witness for the restore chain: the original active name resolves and is
preferred. -/
theorem restoreActive_preference_chain_witness :
    restoreActive [tieActive] "A" ["A"] 0 1 = some tieActive :=
  (restoreActive_preference_chain [tieActive] "A" ["A"] 0 1).1 tieActive (by decide)

/-- Claim C1 (confirmed): on a successful run the result is `FINISHED` and
the processed strips occupy the frame ranges
`[S0 + i*dur, S0 + (i+1)*dur)` in the order of their original
`(channel, start_frame)` rank: the strip at position `i` of the sorted
working set ends with start frame `S0 + i * dur`, duration `dur` (one
common positive duration) and the active strip's original channel.  The
ranges are contiguous, non-overlapping and the first starts at the active
strip's original start frame. -/
theorem execute_distributes_contiguous_equal (pySet : List Strip → List Strip)
    (scene : Scene) (sequencer : SequenceEditor) (active : Strip)
    (hed : scene.sequence_editor = some sequencer)
    (hact : sequencer.active_strip = some active)
    (hperm : (pySet (workingList sequencer.sequences active)).Perm
      (workingList sequencer.sequences active))
    (hnd : (sequencer.sequences.map Strip.name).Nodup)
    (hmem : active ∈ sequencer.sequences)
    (hdur : 0 < active.frame_final_duration) :
    (execute pySet scene).1 = OpResult.FINISHED ∧
    1 ≤ perStripDuration pySet sequencer.sequences active ∧
    List.Sorted stripLE (sortedWorking pySet sequencer.sequences active) ∧
    ∃ sequencer2, (execute pySet scene).2.2.sequence_editor = some sequencer2 ∧
      ∀ i s, (sortedWorking pySet sequencer.sequences active).get? i = some s →
        getByName sequencer2.sequences s.name =
          some { name := s.name,
                 frame_start := active.frame_start +
                   i * perStripDuration pySet sequencer.sequences active,
                 frame_final_duration := perStripDuration pySet sequencer.sequences active,
                 channel := active.channel,
                 select := true } := by
  have hne : pySet (workingList sequencer.sequences active) ≠ [] := by
    intro h
    rw [h] at hperm
    exact workingList_ne_nil _ _ hperm.nil_eq.symm
  rw [execute_eq_of_success pySet scene sequencer active hed hact hne hdur]
  refine ⟨rfl, ?_, List.sorted_insertionSort _ _, _, rfl, ?_⟩
  · simp only [perStripDuration, newDurationPerStrip]
    exact le_max_left _ _
  · intro i s hg
    exact getByName_processedSequences pySet sequencer.sequences active hnd hmem hperm i s hg

/-- Witness for the distribution invariant on `demoScene`. -/
theorem execute_distributes_contiguous_equal_witness :
    (execute (fun l => l) demoScene).1 = OpResult.FINISHED :=
  (execute_distributes_contiguous_equal (fun l => l) demoScene demoEditor demoActive
    rfl rfl (List.Perm.refl _) (by decide) (by decide) (by decide)).1

/-- Claim C2 (confirmed): on a successful run every processed strip ends
with final duration `max(1, round(D / N))`, where `D` is the active strip's
original final duration and `N` the size of the working set (the active
strip included); `round` is CPython rounding, modelled by `pyRound`. -/
theorem execute_duration_eq_max_one_round (pySet : List Strip → List Strip)
    (scene : Scene) (sequencer : SequenceEditor) (active : Strip)
    (hed : scene.sequence_editor = some sequencer)
    (hact : sequencer.active_strip = some active)
    (hperm : (pySet (workingList sequencer.sequences active)).Perm
      (workingList sequencer.sequences active))
    (hnd : (sequencer.sequences.map Strip.name).Nodup)
    (hmem : active ∈ sequencer.sequences)
    (hdur : 0 < active.frame_final_duration) :
    ∃ sequencer2, (execute pySet scene).2.2.sequence_editor = some sequencer2 ∧
      ∀ s ∈ sequencer2.sequences,
        s.name ∈ (sortedWorking pySet sequencer.sequences active).map Strip.name →
          s.frame_final_duration =
            max 1 (pyRound active.frame_final_duration
              (pySet (workingList sequencer.sequences active)).length) := by
  have hne : pySet (workingList sequencer.sequences active) ≠ [] := by
    intro h
    rw [h] at hperm
    exact workingList_ne_nil _ _ hperm.nil_eq.symm
  rw [execute_eq_of_success pySet scene sequencer active hed hact hne hdur]
  refine ⟨_, rfl, ?_⟩
  intro s hs hname
  rcases List.mem_map.mp hname with ⟨t, ht, htname⟩
  rcases List.mem_iff_get?.mp ht with ⟨i, hi⟩
  have hbig := getByName_processedSequences pySet sequencer.sequences active hnd hmem hperm i t hi
  rw [htname] at hbig
  have hnd2 : ((processedSequences pySet sequencer.sequences active).map Strip.name).Nodup := by
    rw [map_name_processedSequences]
    exact hnd
  have hself : getByName (processedSequences pySet sequencer.sequences active) s.name = some s :=
    getByName_eq_some_self _ _ hnd2 hs
  rw [hbig] at hself
  have h2 := Option.some.inj hself
  rw [← h2]
  rfl

/-- Witness for the per-strip duration on `demoScene`. -/
theorem execute_duration_eq_max_one_round_witness :
    ∃ sequencer2, (execute (fun l => l) demoScene).2.2.sequence_editor = some sequencer2 ∧
      ∀ s ∈ sequencer2.sequences,
        s.name ∈ (sortedWorking (fun l => l) demoEditor.sequences demoActive).map Strip.name →
          s.frame_final_duration =
            max 1 (pyRound demoActive.frame_final_duration
              ((fun l => l) (workingList demoEditor.sequences demoActive)).length) :=
  execute_duration_eq_max_one_round (fun l => l) demoScene demoEditor demoActive
    rfl rfl (List.Perm.refl _) (by decide) (by decide) (by decide)

/-- Claim C9 (confirmed): after a successful run the host's selection is
exactly the processed strips: every strip whose name is not a processed name
keeps its position, name, start frame, duration and channel and only has its
selected flag cleared, and a strip of the result is selected exactly when
its name is a processed name. -/
theorem execute_selection_exactly_processed (pySet : List Strip → List Strip)
    (scene : Scene) (sequencer : SequenceEditor) (active : Strip)
    (hed : scene.sequence_editor = some sequencer)
    (hact : sequencer.active_strip = some active)
    (hperm : (pySet (workingList sequencer.sequences active)).Perm
      (workingList sequencer.sequences active))
    (hnd : (sequencer.sequences.map Strip.name).Nodup)
    (hmem : active ∈ sequencer.sequences)
    (hdur : 0 < active.frame_final_duration) :
    ∃ sequencer2, (execute pySet scene).2.2.sequence_editor = some sequencer2 ∧
      sequencer2.sequences.length = sequencer.sequences.length ∧
      (∀ i s, sequencer.sequences.get? i = some s →
        s.name ∉ (sortedWorking pySet sequencer.sequences active).map Strip.name →
        sequencer2.sequences.get? i = some { s with select := false }) ∧
      ∀ s ∈ sequencer2.sequences,
        (s.select = true ↔
          s.name ∈ (sortedWorking pySet sequencer.sequences active).map Strip.name) := by
  have hne : pySet (workingList sequencer.sequences active) ≠ [] := by
    intro h
    rw [h] at hperm
    exact workingList_ne_nil _ _ hperm.nil_eq.symm
  have hlen : (processedSequences pySet sequencer.sequences active).length =
      sequencer.sequences.length := by
    unfold processedSequences
    rw [length_reselect, length_deselectAll, length_distributeLoop]
  have hb : ∀ i s, sequencer.sequences.get? i = some s →
      s.name ∉ (sortedWorking pySet sequencer.sequences active).map Strip.name →
      (processedSequences pySet sequencer.sequences active).get? i =
        some { s with select := false } := by
    intro i s hg hnot
    have h1 := get?_distributeLoop_of_not_mem
      (perStripDuration pySet sequencer.sequences active) active.channel
      (sortedWorking pySet sequencer.sequences active) active.frame_start
      sequencer.sequences i s hg hnot
    have h2 : (deselectAll (distributeLoop (perStripDuration pySet sequencer.sequences active)
        active.channel (sortedWorking pySet sequencer.sequences active) active.frame_start
        sequencer.sequences)).get? i = some { s with select := false } := by
      rw [get?_deselectAll, h1]
      rfl
    exact get?_reselect_of_not_mem _ _ _ _ h2 hnot
  have hnd2 : ((processedSequences pySet sequencer.sequences active).map Strip.name).Nodup := by
    rw [map_name_processedSequences]
    exact hnd
  have hc : ∀ s ∈ processedSequences pySet sequencer.sequences active,
      (s.select = true ↔
        s.name ∈ (sortedWorking pySet sequencer.sequences active).map Strip.name) := by
    intro s hs
    by_cases hname : s.name ∈ (sortedWorking pySet sequencer.sequences active).map Strip.name
    · rcases List.mem_map.mp hname with ⟨t, ht, htname⟩
      rcases List.mem_iff_get?.mp ht with ⟨j, hj⟩
      have hbig := getByName_processedSequences pySet sequencer.sequences active hnd hmem hperm j t hj
      rw [htname] at hbig
      have hself : getByName (processedSequences pySet sequencer.sequences active) s.name =
          some s := getByName_eq_some_self _ _ hnd2 hs
      rw [hbig] at hself
      have h2 := Option.some.inj hself
      rw [← h2]
      simpa using hname
    · rcases List.mem_iff_get?.mp hs with ⟨i, hgi⟩
      have hilt : i < (processedSequences pySet sequencer.sequences active).length := by
        rcases List.get?_eq_some.mp hgi with ⟨h, _⟩
        exact h
      have hi2 : i < sequencer.sequences.length := by
        rw [← hlen]
        exact hilt
      have hs0 : sequencer.sequences.get? i =
          some (sequencer.sequences.get ⟨i, hi2⟩) := List.get?_eq_get hi2
      have hname0 : (sequencer.sequences.get ⟨i, hi2⟩).name = s.name := by
        have hm1 : ((processedSequences pySet sequencer.sequences active).map Strip.name).get? i =
            some s.name := by
          rw [List.get?_map, hgi]
          rfl
        have hm2 : ((sequencer.sequences.map Strip.name)).get? i =
            some (sequencer.sequences.get ⟨i, hi2⟩).name := by
          rw [List.get?_map, hs0]
          rfl
        rw [map_name_processedSequences] at hm1
        rw [hm1] at hm2
        exact (Option.some.inj hm2).symm
      have hnot0 : (sequencer.sequences.get ⟨i, hi2⟩).name ∉
          (sortedWorking pySet sequencer.sequences active).map Strip.name := by
        rw [hname0]
        exact hname
      have hres := hb i (sequencer.sequences.get ⟨i, hi2⟩) hs0 hnot0
      rw [hgi] at hres
      have h2 := Option.some.inj hres
      have hsel : s.select = false := by rw [h2]
      simp [hsel, hname]
  rw [execute_eq_of_success pySet scene sequencer active hed hact hne hdur]
  exact ⟨_, rfl, hlen, hb, hc⟩

/-- Witness for the selection behaviour on `demoScene`, with the unselected
bystander strip `"D"`. -/
theorem execute_selection_exactly_processed_witness :
    ∃ sequencer2, (execute (fun l => l) demoScene).2.2.sequence_editor = some sequencer2 ∧
      sequencer2.sequences.length = demoEditor.sequences.length ∧
      (∀ i s, demoEditor.sequences.get? i = some s →
        s.name ∉ (sortedWorking (fun l => l) demoEditor.sequences demoActive).map Strip.name →
        sequencer2.sequences.get? i = some { s with select := false }) ∧
      ∀ s ∈ sequencer2.sequences,
        (s.select = true ↔
          s.name ∈ (sortedWorking (fun l => l) demoEditor.sequences demoActive).map Strip.name) :=
  execute_selection_exactly_processed (fun l => l) demoScene demoEditor demoActive
    rfl rfl (List.Perm.refl _) (by decide) (by decide) (by decide)

/-- Claim C3, counterexample: in `tieScene` the two strips share the sort
key `(1, 0)`.  The identity order and the reversed order of the working set
as built are both permutations of it, hence both valid iteration orders of
`list(set(...))`, yet they lead to different placements of strip `"B"`
(start frame 5 versus 0): with tied keys the output ordering is not a
deterministic function of the input selection. -/
theorem execute_tie_order_depends_on_set_order :
    sortKey (⟨"A", 0, 10, 1, true⟩ : Strip) = sortKey (⟨"B", 0, 5, 1, true⟩ : Strip) ∧
    (List.reverse (workingList tieEditor.sequences tieActive)).Perm
      (workingList tieEditor.sequences tieActive) ∧
    getByName (resultSequences (execute (fun l => l) tieScene)) "B" =
      some (⟨"B", 5, 5, 1, true⟩ : Strip) ∧
    getByName (resultSequences (execute List.reverse tieScene)) "B" =
      some (⟨"B", 0, 5, 1, true⟩ : Strip) ∧
    execute (fun l => l) tieScene ≠ execute List.reverse tieScene := by
  refine ⟨by decide, List.reverse_perm _, by decide, by decide, ?_⟩
  intro h
  have h1 : getByName (resultSequences (execute (fun l => l) tieScene)) "B" =
      getByName (resultSequences (execute List.reverse tieScene)) "B" := by
    rw [h]
  rw [show getByName (resultSequences (execute (fun l => l) tieScene)) "B" =
        some (⟨"B", 5, 5, 1, true⟩ : Strip) from by decide,
    show getByName (resultSequences (execute List.reverse tieScene)) "B" =
        some (⟨"B", 0, 5, 1, true⟩ : Strip) from by decide] at h1
  simp at h1

/-- Claim C3 (amended): the operator stably sorts the working set as built
by ascending pre-mutation `(channel, frame_start)` key and this order alone
fixes the placement: the sorted list is sorted by the key order, two
key-tied strips keep the relative order of the working set as built, and
whenever the keys are pairwise distinct the run's outcome does not depend on
the iteration order of `list(set(...))`.  With tied keys the as-built order
itself comes from the set reordering, so determinism holds only relative to
it, as the counterexample shows. -/
theorem execute_stable_sort_placement :
    (∀ (pySet : List Strip → List Strip) (seqs : List Strip) (active : Strip),
      List.Sorted stripLE (sortedWorking pySet seqs active)) ∧
    (∀ (pySet : List Strip → List Strip) (seqs : List Strip) (active : Strip)
      (s t : Strip), sortKey s = sortKey t →
        [s, t].Sublist (pySet (workingList seqs active)) →
        [s, t].Sublist (sortedWorking pySet seqs active)) ∧
    (∀ (pySet1 pySet2 : List Strip → List Strip) (scene : Scene)
      (sequencer : SequenceEditor) (active : Strip),
        scene.sequence_editor = some sequencer →
        sequencer.active_strip = some active →
        (pySet1 (workingList sequencer.sequences active)).Perm
          (workingList sequencer.sequences active) →
        (pySet2 (workingList sequencer.sequences active)).Perm
          (workingList sequencer.sequences active) →
        (∀ s ∈ workingList sequencer.sequences active,
         ∀ t ∈ workingList sequencer.sequences active,
            sortKey s = sortKey t → s = t) →
        execute pySet1 scene = execute pySet2 scene) := by
  refine ⟨fun pySet seqs active => List.sorted_insertionSort _ _, ?_, ?_⟩
  · intro pySet seqs active s t hk hsub
    exact List.pair_sublist_insertionSort (stripLE_of_sortKey_eq s t hk) hsub
  · intro pySet1 pySet2 scene sequencer active hed hact hp1 hp2 hinj
    have hne1 : pySet1 (workingList sequencer.sequences active) ≠ [] := by
      intro h
      rw [h] at hp1
      exact workingList_ne_nil _ _ hp1.nil_eq.symm
    have hne2 : pySet2 (workingList sequencer.sequences active) ≠ [] := by
      intro h
      rw [h] at hp2
      exact workingList_ne_nil _ _ hp2.nil_eq.symm
    have hsort : List.insertionSort stripLE (pySet1 (workingList sequencer.sequences active)) =
        List.insertionSort stripLE (pySet2 (workingList sequencer.sequences active)) :=
      insertionSort_eq_of_perm_keyInj _ _ (hp1.trans hp2.symm)
        (fun s hs t ht h => hinj s (hp1.subset hs) t (hp1.subset ht) h)
    have hlen12 : (pySet1 (workingList sequencer.sequences active)).length =
        (pySet2 (workingList sequencer.sequences active)).length := by
      rw [hp1.length_eq, hp2.length_eq]
    by_cases hdur : 0 < active.frame_final_duration
    · rw [execute_eq_of_success pySet1 scene sequencer active hed hact hne1 hdur,
        execute_eq_of_success pySet2 scene sequencer active hed hact hne2 hdur]
      simp only [successReport, processedSequences, activeAfter, perStripDuration, sortedWorking]
      rw [hsort, hlen12]
    · have hdur2 : active.frame_final_duration ≤ 0 := by omega
      have hl1 : ¬ (pySet1 (workingList sequencer.sequences active)).length = 0 := by
        simpa [List.length_eq_zero] using hne1
      have hl2 : ¬ (pySet2 (workingList sequencer.sequences active)).length = 0 := by
        simpa [List.length_eq_zero] using hne2
      simp [execute, hed, hact, hne1, hne2, hl1, hl2, hdur2]

/-- Witness for the stable-sort placement: with distinct keys the identity
order and the reversed order of the working set give the same run. -/
theorem execute_stable_sort_placement_witness :
    execute (fun l => l) keysScene = execute List.reverse keysScene :=
  execute_stable_sort_placement.2.2 (fun l => l) List.reverse keysScene keysEditor tieActive
    rfl rfl (List.Perm.refl _) (List.reverse_perm _) (by decide)

end DistributeSelected
